import Mathlib

/-!
Shallow embedding of the `@workspace/api` request-handling library
(`src/errors.ts`, `src/validation.ts`, the guard module, the route-handler
module and the query-schema helpers), together with theorems checking the
natural-language specification against it.

JavaScript values that flow through the library (JSON bodies, form-data
fields, response bodies) are modelled by the inductive type `Val`; JS
numbers are modelled by `Int` (all arithmetic performed by the library is
integer-valued on the inputs the spec quantifies over); a JS function's
declared parameter count (`Function.length`) is modelled explicitly.
Fallible computations (`throw`/`catch`) are modelled with `Except`.
-/

/-- A JavaScript value: `undefined`, `null`, booleans, number (integer),
strings, arrays and plain objects (ordered field lists, as JS objects are). -/
inductive Val : Type where
  | undef : Val
  | null : Val
  | bool (b : Bool) : Val
  | num (n : Int) : Val
  | str (s : String) : Val
  | arr (elems : List Val) : Val
  | obj (fields : List (String × Val)) : Val

namespace Val

/-- First-match field lookup on an object's field list (JS object keys are
unique, so the first match is the value of the property). -/
def getField? : Val → String → Option Val
  | .obj fields, k => (fields.find? (fun p => p.1 = k)).map (·.2)
  | _, _ => none

end Val

/-- Assigning property `k := v` on an ordered field list, as a JS object
literal does: an existing key keeps its position and gets the new value, a
new key is appended. -/
def setField {β : Type} (fields : List (String × β)) (k : String) (v : β) :
    List (String × β) :=
  if fields.any (fun p => p.1 = k) then
    fields.map (fun p => if p.1 = k then (k, v) else p)
  else fields ++ [(k, v)]

/-- JS object-literal spread semantics: `{ ...base, ...extra }` assigns the
properties of `extra` over `base` in order, so later keys override. -/
def spreadInto (base extra : List (String × Val)) : List (String × Val) :=
  extra.foldl (fun acc p => setField acc p.1 p.2) base

/-- An HTTP response: status code, JSON-serialisable body, headers. -/
structure HttpResponse where
  status : Nat
  body : Val
  headers : List (String × String) := []

/-! ## Response builders (`src/errors.ts`, "BASIC" and "PAGINATION" sections)

The optional `init` parameter of the builders (extra `ResponseInit`
overrides) is not modelled; all claims concern the default-`init` calls. -/

/-- `httpOk(data)`: status 200, body verbatim. -/
def httpOk (data : Val) : HttpResponse := ⟨200, data, []⟩

/-- `httpDeleted(data?)`: status 200, body `{ deleted: true, ...(data ?? {}) }`.
An absent argument is `none`; the spread merges the caller's fields over the
`deleted: true` base. -/
def httpDeleted (data : Option (List (String × Val))) : HttpResponse :=
  ⟨200, .obj (spreadInto [("deleted", .bool true)] (data.getD [])), []⟩

/-- `httpCreated(data)`: status 201, body verbatim. -/
def httpCreated (data : Val) : HttpResponse := ⟨201, data, []⟩

/-- `httpError(status, message)`: body `{ error: { message } }`. -/
def httpError (status : Nat) (message : String) : HttpResponse :=
  ⟨status, .obj [("error", .obj [("message", .str message)])], []⟩

/-- `Math.ceil(a / b)` for integer `a` and positive integer `b` (the only
way `buildPageInfo` divides, since the divisor is clamped to `≥ 1`). -/
def jsCeilDiv (a b : Int) : Int := -(-a / b)

/-- The `PageInfo` record of `src/errors.ts`. -/
structure PageInfo where
  page : Int
  pageCount : Int
  limit : Int
  total : Int
  hasNext : Bool
  hasPrev : Bool
deriving DecidableEq, Repr

/-- `buildPageInfo(total, page, limit)`: clamps `limit` to `≥ 1`
(`safeLimit`), computes `pageCount = max(1, ceil(total / safeLimit))` and the
`hasNext`/`hasPrev` flags. -/
def buildPageInfo (total page limit : Int) : PageInfo :=
  let safeLimit := max 1 limit
  let pageCount := max 1 (jsCeilDiv total safeLimit)
  { page := page
    pageCount := pageCount
    limit := safeLimit
    total := total
    hasNext := decide (page < pageCount)
    hasPrev := decide (page > 1) }

/-! ## Query-schema helpers (default query schema module) -/

/-- The parsed shape of the default query schema: `page` and `limit`
(coerced positive integers with defaults) and the two optional ISO-8601
timestamps, modelled by their `Date` values (epoch instants), since the
base schema only admits valid datetime strings. -/
structure ParsedQuery where
  page : Int
  limit : Int
  updated_after : Option Int
  updated_before : Option Int
deriving DecidableEq, Repr

/-- The `.refine` predicate of `DefaultQuerySchemaRefined`:
`!q.updated_after || !q.updated_before ||
 new Date(q.updated_after) <= new Date(q.updated_before)`. -/
def defaultQueryRefineCheck (q : ParsedQuery) : Bool :=
  match q.updated_after, q.updated_before with
  | some ua, some ub => decide (ua ≤ ub)
  | _, _ => true

/-- `querySchemaToRange({page, limit})`: the zero-based element range of the
requested page. -/
def querySchemaToRange (page limit : Int) : Int × Int :=
  let from_ := (page - 1) * limit
  let to_ := from_ + limit - 1
  (from_, to_)

/-! ## Theorems for the response builders -/

/-- Bounds characterising `jsCeilDiv` as the ceiling of the true quotient:
for a positive divisor, `a ≤ jsCeilDiv a b * b < a + b`. -/
theorem jsCeilDiv_bounds (a b : Int) (hb : 0 < b) :
    a ≤ jsCeilDiv a b * b ∧ jsCeilDiv a b * b < a + b := by
  have hne : b ≠ 0 := ne_of_gt hb
  have hmod := Int.ediv_add_emod (-a) b
  have hnn := Int.emod_nonneg (-a) hne
  have hlt := Int.emod_lt_of_pos (-a) hb
  have hq : jsCeilDiv a b * b = -(b * (-a / b)) := by
    unfold jsCeilDiv; ring
  constructor
  · rw [hq]; linarith
  · rw [hq]; linarith

/-- C4: for `total ≥ 0`, `page ≥ 1` and any integer `limit`, `buildPageInfo`
clamps the limit to at least 1, satisfies
`pageCount = max(1, ceil(total/limit))` together with the ceiling's defining
bounds, `hasNext = (page < pageCount)`, `hasPrev = (page > 1)`, returns a
page count of at least 1, and for `total = 0` gives `pageCount = 1` and
`hasNext = false`. -/
theorem buildPageInfo_spec (total page limit : Int)
    (htotal : 0 ≤ total) (hpage : 1 ≤ page) :
    (buildPageInfo total page limit).limit = max 1 limit ∧
    1 ≤ (buildPageInfo total page limit).limit ∧
    (buildPageInfo total page limit).pageCount =
      max 1 (jsCeilDiv total (buildPageInfo total page limit).limit) ∧
    total ≤ (buildPageInfo total page limit).pageCount *
      (buildPageInfo total page limit).limit ∧
    (1 < (buildPageInfo total page limit).pageCount →
      ((buildPageInfo total page limit).pageCount - 1) *
        (buildPageInfo total page limit).limit < total) ∧
    (buildPageInfo total page limit).hasNext =
      decide (page < (buildPageInfo total page limit).pageCount) ∧
    (buildPageInfo total page limit).hasPrev = decide (1 < page) ∧
    1 ≤ (buildPageInfo total page limit).pageCount ∧
    (total = 0 → (buildPageInfo total page limit).pageCount = 1 ∧
      (buildPageInfo total page limit).hasNext = false) := by
  have e1 : (buildPageInfo total page limit).limit = max 1 limit := rfl
  have e2 : (buildPageInfo total page limit).pageCount =
      max 1 (jsCeilDiv total (max 1 limit)) := rfl
  have e3 : (buildPageInfo total page limit).hasNext =
      decide (page < max 1 (jsCeilDiv total (max 1 limit))) := rfl
  have hlim : (1 : Int) ≤ max 1 limit := le_max_left 1 limit
  have hpos : (0 : Int) < max 1 limit := lt_of_lt_of_le zero_lt_one hlim
  have hbounds := jsCeilDiv_bounds total (max 1 limit) hpos
  refine ⟨rfl, ?_, ?_, ?_, ?_, ?_, rfl, ?_, ?_⟩
  · rw [e1]; exact hlim
  · rw [e2, e1]
  · -- total ≤ pageCount * limit
    rw [e2, e1]
    rcases le_or_lt (jsCeilDiv total (max 1 limit)) 1 with h | h
    · rw [max_eq_left h, one_mul]
      calc total ≤ jsCeilDiv total (max 1 limit) * max 1 limit := hbounds.1
        _ ≤ 1 * max 1 limit := mul_le_mul_of_nonneg_right h (le_of_lt hpos)
        _ = max 1 limit := one_mul _
    · rw [max_eq_right (le_of_lt h)]; exact hbounds.1
  · -- 1 < pageCount → (pageCount - 1) * limit < total
    rw [e2, e1]
    intro hgt
    have hmax : max 1 (jsCeilDiv total (max 1 limit)) =
        jsCeilDiv total (max 1 limit) := by
      rcases le_or_lt (jsCeilDiv total (max 1 limit)) 1 with h | h
      · exfalso; rw [max_eq_left h] at hgt; exact lt_irrefl 1 hgt
      · exact max_eq_right (le_of_lt h)
    rw [hmax]
    have h2 := hbounds.2
    have hring : (jsCeilDiv total (max 1 limit) - 1) * max 1 limit
        = jsCeilDiv total (max 1 limit) * max 1 limit - max 1 limit := by ring
    rw [hring]; linarith
  · rw [e3, e2]
  · rw [e2]; exact le_max_left _ _
  · -- total = 0 case
    intro h0
    subst h0
    have hceil : jsCeilDiv 0 (max 1 limit) = 0 := by
      unfold jsCeilDiv
      simp
    constructor
    · rw [e2, hceil]; simp
    · rw [e3, hceil]
      simp only [decide_eq_false_iff_not, not_lt]
      simpa using hpage

/-- Witness for C4 at `total = 0`, `page = 1`, `limit = 0` (a clamped limit). -/
theorem buildPageInfo_spec_witness :
    (0 : Int) ≤ 0 ∧ (1 : Int) ≤ 1 ∧
    ((buildPageInfo 0 1 0).limit = max 1 0 ∧
     (buildPageInfo 0 1 0).pageCount = 1 ∧
     (buildPageInfo 0 1 0).hasNext = false) := by
  have h := buildPageInfo_spec 0 1 0 (by decide) (by decide)
  refine ⟨by decide, by decide, h.1, ?_, ?_⟩
  · exact (h.2.2.2.2.2.2.2.2 rfl).1
  · exact (h.2.2.2.2.2.2.2.2 rfl).2

/-- C3 counterexample: a caller-supplied `deleted` field *does* override the
`true` written first by the object spread: `httpDeleted({deleted: false})`
has body field `deleted = false`, not `true`. -/
theorem httpDeleted_override_cex :
    (httpDeleted (some [("deleted", .bool false)])).body.getField? "deleted"
      ≠ some (.bool true) := by
  have h : (httpDeleted (some [("deleted", .bool false)])).body.getField?
      "deleted" = some (.bool false) := rfl
  rw [h]
  simp

/-- Updating key `k` leaves lookups of other keys untouched. -/
theorem find?_map_setFn_ne {β : Type} (l : List (String × β)) (k j : String)
    (v : β) (h : j ≠ k) :
    (l.map (fun p => if p.1 = k then (k, v) else p)).find? (fun p => p.1 = j)
      = l.find? (fun p => p.1 = j) := by
  induction l with
  | nil => rfl
  | cons a l ih =>
    by_cases hak : a.1 = k
    · have h1 : ((if a.1 = k then (k, v) else a) : String × β) = (k, v) := by
        simp [hak]
      by_cases haj : a.1 = j
      · exact absurd (haj.symm.trans hak) h
      · simp only [List.map_cons, h1]
        rw [List.find?_cons_of_neg _ (by simp [Ne.symm h]),
          List.find?_cons_of_neg _ (by simp [haj])]
        exact ih
    · have h1 : ((if a.1 = k then (k, v) else a) : String × β) = a := by
        simp [hak]
      simp only [List.map_cons, h1]
      by_cases haj : a.1 = j
      · rw [List.find?_cons_of_pos _ (by simp [haj]),
          List.find?_cons_of_pos _ (by simp [haj])]
      · rw [List.find?_cons_of_neg _ (by simp [haj]),
          List.find?_cons_of_neg _ (by simp [haj])]
        exact ih

/-- If key `k` occurs, updating it makes its lookup return the new value. -/
theorem find?_map_setFn_eq {β : Type} (l : List (String × β)) (k : String)
    (v : β) (h : l.any (fun p => p.1 = k)) :
    (l.map (fun p => if p.1 = k then (k, v) else p)).find? (fun p => p.1 = k)
      = some (k, v) := by
  induction l with
  | nil => simp at h
  | cons a l ih =>
    by_cases hak : a.1 = k
    · have h1 : ((if a.1 = k then (k, v) else a) : String × β) = (k, v) := by
        simp [hak]
      simp only [List.map_cons, h1]
      rw [List.find?_cons_of_pos _ (by simp)]
    · have h1 : ((if a.1 = k then (k, v) else a) : String × β) = a := by
        simp [hak]
      simp only [List.map_cons, h1]
      rw [List.find?_cons_of_neg _ (by simp [hak])]
      apply ih
      simp only [List.any_cons, Bool.or_eq_true] at h
      rcases h with h | h
      · exact absurd (of_decide_eq_true h) hak
      · exact h

/-- Lookup after a JS property assignment: key `k` now maps to `v`, all other
keys are unchanged. -/
theorem find?_setField {β : Type} (fields : List (String × β)) (k : String)
    (v : β) (j : String) :
    (setField fields k v).find? (fun p => p.1 = j) =
      if j = k then some (k, v) else fields.find? (fun p => p.1 = j) := by
  unfold setField
  by_cases hany : fields.any (fun p => p.1 = k)
  · rw [if_pos hany]
    by_cases hjk : j = k
    · subst hjk
      rw [if_pos rfl]
      exact find?_map_setFn_eq fields j v hany
    · rw [if_neg hjk]
      exact find?_map_setFn_ne fields k j v hjk
  · rw [if_neg hany]
    have hnone : fields.find? (fun p => p.1 = k) = none := by
      rw [List.find?_eq_none]
      intro p hp
      simp only [List.any_eq_true, not_exists] at hany
      have := hany p
      simp only [hp, true_and] at this
      simpa using this
    by_cases hjk : j = k
    · subst hjk
      rw [List.find?_append, hnone, if_pos rfl]
      simp
    · rw [List.find?_append]
      cases hf : fields.find? (fun p => p.1 = j) with
      | some q => rw [if_neg hjk]; rfl
      | none =>
        rw [if_neg hjk]
        simp [Option.or, Ne.symm hjk]

/-- Effective value of key `k` after spreading `extra` over `base`: the last
occurrence of `k` in `extra` wins, otherwise the base value survives. -/
theorem getField_spreadInto (extra : List (String × Val))
    (base : List (String × Val)) (k : String) :
    (Val.obj (spreadInto base extra)).getField? k =
      match extra.reverse.find? (fun p => p.1 = k) with
      | some p => some p.2
      | none => (Val.obj base).getField? k := by
  induction extra generalizing base with
  | nil => rfl
  | cons hd tl ih =>
    have hstep : spreadInto base (hd :: tl) =
        spreadInto (setField base hd.1 hd.2) tl := rfl
    rw [hstep, ih]
    have hrev : (hd :: tl).reverse = tl.reverse ++ [hd] := by simp
    rw [hrev, List.find?_append]
    cases hf : tl.reverse.find? (fun p => p.1 = k) with
    | some p => rfl
    | none =>
      have hL : (Val.obj (setField base hd.1 hd.2)).getField? k =
          ((setField base hd.1 hd.2).find? (fun p => p.1 = k)).map (·.2) := rfl
      rw [hL, find?_setField]
      by_cases hk : k = hd.1
      · rw [if_pos hk]
        have hfind : [hd].find? (fun p => p.1 = k) = some hd := by
          rw [List.find?_singleton]
          simp [hk]
        rw [hfind]
        simp [Option.or]
      · rw [if_neg hk]
        have hfind : [hd].find? (fun p => p.1 = k) = none := by
          rw [List.find?_singleton]
          simp [Ne.symm hk]
        rw [hfind]
        simp [Option.or, Val.getField?]

/-- C3 (amended): `httpDeleted(data)` always has status 200; the body's
`deleted` field is `true` by default but a caller-supplied `deleted` field
*overrides* it (JS spread: the last caller-supplied value wins); with the
argument omitted the response is exactly status 200, body `{deleted: true}`. -/
theorem httpDeleted_spec (data : List (String × Val)) :
    (httpDeleted (some data)).status = 200 ∧
    (httpDeleted (some data)).body.getField? "deleted" =
      (match data.reverse.find? (fun p => p.1 = "deleted") with
       | some p => some p.2
       | none => some (.bool true)) ∧
    httpDeleted none = ⟨200, .obj [("deleted", .bool true)], []⟩ := by
  refine ⟨rfl, ?_, rfl⟩
  have h : (httpDeleted (some data)).body =
      .obj (spreadInto [("deleted", .bool true)] data) := rfl
  rw [h, getField_spreadInto]
  cases hf : data.reverse.find? (fun p => p.1 = "deleted") with
  | some q => rfl
  | none => rfl

/-- C9: `querySchemaToRange` maps `{page, limit}` (both ≥ 1) to the
zero-based inclusive range of the page: `from = (page-1)*limit`,
`to = from + limit - 1`; the range starts at a non-negative index, is
well-ordered, and spans exactly `limit` elements. -/
theorem querySchemaToRange_spec (page limit : Int)
    (hpage : 1 ≤ page) (hlimit : 1 ≤ limit) :
    querySchemaToRange page limit =
      ((page - 1) * limit, (page - 1) * limit + limit - 1) ∧
    0 ≤ (querySchemaToRange page limit).1 ∧
    (querySchemaToRange page limit).1 ≤ (querySchemaToRange page limit).2 ∧
    (querySchemaToRange page limit).2 - (querySchemaToRange page limit).1 + 1
      = limit := by
  refine ⟨rfl, ?_, ?_, ?_⟩
  · show 0 ≤ (page - 1) * limit
    have h1 : 0 ≤ page - 1 := by linarith
    have h2 : 0 ≤ limit := by linarith
    exact mul_nonneg h1 h2
  · show (page - 1) * limit ≤ (page - 1) * limit + limit - 1
    linarith
  · show (page - 1) * limit + limit - 1 - (page - 1) * limit + 1 = limit
    ring

/-- Witness for C9: the spec's two examples, `{page:1, limit:25} ↦ {0, 24}`
and `{page:3, limit:10} ↦ {20, 29}`. -/
theorem querySchemaToRange_spec_witness :
    ((1 : Int) ≤ 1 ∧ (1 : Int) ≤ 25 ∧
      querySchemaToRange 1 25 = (0, 24)) ∧
    querySchemaToRange 3 10 = (20, 29) := by
  refine ⟨⟨by decide, by decide, ?_⟩, by decide⟩
  have h := querySchemaToRange_spec 1 25 (by decide) (by decide)
  rw [h.1]
  decide

/-! ## Errors and requests

`JsError` models the exceptions the pipeline distinguishes: a
validation-engine-native exception (`ZodError`, carrying its `issues`), a
taxonomy error (`HttpError` with status and message; `Forbidden` is
`httpError 403 "Forbidden"` etc.), and any other thrown value. -/

/-- A thrown JS value, as classified by the pipeline's `catch`. -/
inductive JsError : Type where
  | zodError (issues : Val)
  | httpError (status : Nat) (message : String)
  | other

/-- The slice of an incoming HTTP request the pipeline reads: the URL's
query-string entries, the `content-type` header (`none` when absent), and
the results of `req.json()` / `req.formData()` (which may reject). A form
body is a list of keys, each with the list of values under that key. -/
structure Request where
  searchParams : List (String × String)
  contentType : Option String
  json : Except JsError Val
  formData : Except JsError (List (String × List Val))

/-! ## Guard engine (guard module) -/

/-- A registered permission-check as a JS function value: its declared
parameter count (`Function.length`) and its behaviour when called with
`authData` and a possibly-`undefined` resource (`none` = `undefined`). -/
structure JsPermissionFn (A R : Type) where
  length : Nat
  call : A → Option R → Bool

/-- The per-request result of evaluating a guard:
`{handler, needResource, authData}`. -/
structure PermissionHandler (R A : Type) where
  handler : Option R → Bool
  needResource : Bool
  authData : A

/-- A `Guard`: a named action paired with a permission-handler generator. -/
structure Guard (R A : Type) where
  action : String
  permissionHandlerGenerator :
    String → Request → Except JsError (PermissionHandler R A)

/-- Options of `initGuards`: the action-to-check mapping and the
authentication function (which may throw). -/
structure InitGuardOptions (R A : Type) where
  guardChecks : String → JsPermissionFn A R
  auth : Request → Except JsError A

/-- The `handler(resource?)` closure produced by `initGuards`: dispatch on
the *registered* function's arity; a length-1 check is called with
`authData` only, a length-2 check with `(authData, resource!)` (`resource`
possibly `undefined`), any other registered arity yields `false`. -/
def guardHandler {A R : Type} (permission : JsPermissionFn A R) (authData : A)
    (resource : Option R) : Bool :=
  if permission.length = 1 then permission.call authData none
  else if permission.length = 2 then permission.call authData resource
  else false

/-- `initGuards(options)`: one guard per action name, all sharing the same
generator, which authenticates (`await options.auth(req)`, rejections
propagating) and packages `needResource = (permission.length === 2)`
together with the arity-dispatching `handler`. -/
def initGuards {R A : Type} (options : InitGuardOptions R A) :
    String → Guard R A :=
  fun action =>
    { action := action
      permissionHandlerGenerator := fun act req =>
        match options.auth req with
        | .error e => .error e
        | .ok authData =>
          let permission := options.guardChecks act
          .ok { needResource := decide (permission.length = 2)
                handler := guardHandler permission authData
                authData := authData } }

/-! ## Schema validation adapter (`src/validation.ts`) -/

/-- Outcome of the opaque schema capability `safeParse`:
success with typed data, or failure with the validator's native issues. -/
inductive VResult (α : Type) : Type where
  | success (data : α)
  | failure (issues : Val)

/-- An opaque schema over pipeline values. -/
def SchemaFn : Type := Val → VResult Val

/-- `validateWithSchema(schema, value, kind)`: the parsed data, or a 400
response `{error: "Invalid <kind>", issues}`. -/
def validateWithSchema {α : Type} (schema : α → VResult α) (value : α)
    (kind : String) : α ⊕ HttpResponse :=
  match schema value with
  | .success d => .inl d
  | .failure issues =>
    .inr ⟨400, .obj [("error", .str ("Invalid " ++ kind)),
      ("issues", issues)], []⟩

/-! ## Route-handler pipeline (route-handler module) -/

/-- The `Schemas` configuration of a route. -/
structure Schemas where
  paramsSchema : Option SchemaFn := none
  querySchema : Option SchemaFn := none
  bodySchema : Option SchemaFn := none

/-- The per-request context handed to the returned handler: the optional
promise of path parameters (`none` = absent, `some` may reject). -/
structure RouteContext where
  params : Option (Except JsError Val)

/-- The context object the pipeline hands to user logic. -/
structure HandlerCtx (R A : Type) where
  req : Request
  params : Val
  query : Val
  body : Option Val
  handleResourcePermission : R → Except JsError Unit
  authData : Option A

/-- JS `??`: `null` and `undefined` fall through to the default. -/
def jsCoalesce (v d : Val) : Val :=
  match v with
  | .undef => d
  | .null => d
  | _ => v

/-- `Object.fromEntries(new URL(req.url).searchParams.entries())`:
a flat string-to-string object, later duplicate keys overriding. -/
def objFromEntries (entries : List (String × String)) : Val :=
  .obj (spreadInto [] (entries.map (fun p => (p.1, .str p.2))))

/-- `formDataToObject(fd)`: each key maps to the array of all its values
only when it appears more than once, otherwise to its single value. -/
def formDataToObject (fd : List (String × List Val)) : Val :=
  .obj (fd.map (fun p =>
    (p.1, if p.2.length > 1 then .arr p.2 else p.2.getD 0 .undef)))

/-- Whether `sub` occurs contiguously in the list, testing every suffix. -/
def listIncludes (sub : List Char) : List Char → Bool
  | [] => sub.isPrefixOf []
  | c :: t => sub.isPrefixOf (c :: t) || listIncludes sub t

/-- JS `String.prototype.includes`. -/
def jsIncludes (s sub : String) : Bool :=
  listIncludes sub.toList s.toList

/-- JS `String.prototype.startsWith`. -/
def jsStartsWith (s pre : String) : Bool :=
  pre.toList.isPrefixOf s.toList

/-- The 400 response for a body that failed to decode. -/
def invalidBodyResponse : HttpResponse :=
  ⟨400, .obj [("error", .str "Invalid request body")], []⟩

/-- The 415 response naming the offending content type. -/
def unsupportedMediaResponse (contentType : String) : HttpResponse :=
  ⟨415, .obj [("error", .str ("Unsupported Content-Type: " ++ contentType))],
    []⟩

/-- Body-decoding strategy of step 4: `multipart/form-data` prefix → form
fields, `application/json` substring or empty content type → JSON, anything
else → 415; a rejection of the body reader → 400 "Invalid request body". -/
def decodeBody (req : Request) : Val ⊕ HttpResponse :=
  let contentType := req.contentType.getD ""
  if jsStartsWith contentType "multipart/form-data" then
    match req.formData with
    | .ok fd => .inl (formDataToObject fd)
    | .error _ => .inr invalidBodyResponse
  else if jsIncludes contentType "application/json" || contentType = "" then
    match req.json with
    | .ok v => .inl v
    | .error _ => .inr invalidBodyResponse
  else .inr (unsupportedMediaResponse contentType)

/-- What the pipeline does with a successfully decoded raw body when only a
body schema is configured and the params promise is absent: validate it and,
on success, invoke user logic with it. -/
def afterBodyDecode {R A : Type}
    (fn : HandlerCtx R A → Except JsError HttpResponse) (sch : SchemaFn)
    (req : Request) (rawBody : Val) : Except JsError HttpResponse :=
  match validateWithSchema sch rawBody "body" with
  | .inr resp => .ok resp
  | .inl d =>
    fn ⟨req, .obj [], .obj [], some d, fun _ => .ok (), none⟩

/-- The `catch` of the pipeline: a `ZodError` becomes a 400
`{error: "Validation error", issues}`, an `HttpError` becomes
`httpError(status, message)`, anything else is logged and becomes
`httpError(500, "Internal server error")`. -/
def translateError : JsError → HttpResponse
  | .zodError issues =>
    ⟨400, .obj [("error", .str "Validation error"), ("issues", issues)], []⟩
  | .httpError s m => httpError s m
  | .other => httpError 500 "Internal server error"

/-- `try { … } catch (e) { … }` around the pipeline body. -/
def runCaught (x : Except JsError HttpResponse) : HttpResponse :=
  match x with
  | .ok resp => resp
  | .error e => translateError e

/-- Steps 2–5 of the pipeline (the body of the `try`): await and validate
params, validate query, decode and validate body, then invoke user logic.
Any uncaught `.error` escapes to the surrounding `catch`. -/
def tryBlock {R A : Type} (fn : HandlerCtx R A → Except JsError HttpResponse)
    (schemas : Option Schemas) (req : Request) (ctx : RouteContext)
    (handleResourcePermission : R → Except JsError Unit)
    (authData : Option A) : Except JsError HttpResponse :=
  match (match ctx.params with
         | none => Except.ok Val.undef
         | some p => p) with
  | .error e => .error e
  | .ok invalidatedParams =>
    match (match schemas.bind (·.paramsSchema) with
           | none => Sum.inl (jsCoalesce invalidatedParams (.obj []))
           | some sch =>
             validateWithSchema sch invalidatedParams "parameters") with
    | .inr resp => .ok resp
    | .inl paramsValue =>
      match (match schemas.bind (·.querySchema) with
             | none => Sum.inl (Val.obj [])
             | some sch =>
               validateWithSchema sch (objFromEntries req.searchParams)
                 "query") with
      | .inr resp => .ok resp
      | .inl queryValue =>
        match (match schemas.bind (·.bodySchema) with
               | none => Sum.inl (none : Option Val)
               | some sch =>
                 match decodeBody req with
                 | .inr resp => Sum.inr resp
                 | .inl rawBody =>
                   match validateWithSchema sch rawBody "body" with
                   | .inr resp => Sum.inr resp
                   | .inl d => Sum.inl (some d)) with
        | .inr resp => .ok resp
        | .inl bodyValue =>
          fn ⟨req, paramsValue, queryValue, bodyValue,
            handleResourcePermission, authData⟩

/-- `handleRoute(fn, schemas?, guard?)`: the returned handler. If a guard is
attached, its generator runs *before* the `try` block, so its errors (for
example a rejection of the `auth` function) propagate out of the handler; a
failed basic check short-circuits with `httpError(403, "Forbidden")`; a
resource-scoped guard installs a `handleResourcePermission` closure that
throws `Forbidden` on a failed check. Steps 2–5 then run inside
`try … catch` (`runCaught ∘ tryBlock`). -/
def handleRoute {R A : Type}
    (fn : HandlerCtx R A → Except JsError HttpResponse)
    (schemas : Option Schemas) (guard : Option (Guard R A)) :
    Request → RouteContext → Except JsError HttpResponse :=
  fun req ctx =>
    match guard with
    | none =>
      .ok (runCaught (tryBlock fn schemas req ctx (fun _ => .ok ()) none))
    | some g =>
      match g.permissionHandlerGenerator g.action req with
      | .error e => .error e
      | .ok ph =>
        if ph.needResource then
          .ok (runCaught (tryBlock fn schemas req ctx
            (fun r => if ph.handler (some r) then .ok ()
                      else .error (.httpError 403 "Forbidden"))
            (some ph.authData)))
        else
          if ph.handler none then
            .ok (runCaught (tryBlock fn schemas req ctx (fun _ => .ok ())
              (some ph.authData)))
          else .ok (httpError 403 "Forbidden")

/-! ## Concrete fixtures used by counterexamples and witnesses -/

/-- A minimal request: no query entries, no content type, empty JSON body. -/
def req₀ : Request := ⟨[], none, .ok (.obj []), .ok []⟩

/-- A route context whose params promise is absent. -/
def ctx₀ : RouteContext := ⟨none⟩

/-- User logic that just returns `httpOk(null)`. -/
def fnOk : HandlerCtx Unit Unit → Except JsError HttpResponse :=
  fun _ => .ok (httpOk .null)

/-- Guard options with a basic (length-1) check that always authorizes. -/
def allowOpts : InitGuardOptions Unit Unit :=
  ⟨fun _ => ⟨1, fun _ _ => true⟩, fun _ => .ok ()⟩

/-- The guard built from `allowOpts`. -/
def allowGuard : Guard Unit Unit := initGuards allowOpts "act"

/-- Guard options with a basic (length-1) check that always denies. -/
def denyOpts : InitGuardOptions Unit Unit :=
  ⟨fun _ => ⟨1, fun _ _ => false⟩, fun _ => .ok ()⟩

/-- The guard built from `denyOpts`. -/
def denyGuard : Guard Unit Unit := initGuards denyOpts "act"

/-- Guard options whose `auth` function throws. -/
def throwingOpts : InitGuardOptions Unit Unit :=
  ⟨fun _ => ⟨1, fun _ _ => true⟩, fun _ => .error .other⟩

/-- The guard built from `throwingOpts`. -/
def throwingGuard : Guard Unit Unit := initGuards throwingOpts "act"

/-- A registered resource-scoped (length-2) check that returns `true`
exactly when it receives an `undefined` resource. -/
def arityCexOpts : InitGuardOptions Unit Unit :=
  ⟨fun _ => ⟨2, fun _ r => r.isNone⟩, fun _ => .ok ()⟩

/-- A registered basic (length-1) check that always returns `true`. -/
def basicEvalOpts : InitGuardOptions Unit Unit :=
  ⟨fun _ => ⟨1, fun _ _ => true⟩, fun _ => .ok ()⟩

/-- A schema rejecting every value. -/
def rejectAllSchema : SchemaFn := fun _ => .failure (.str "rejected")

/-- A schema configuration that rejects all params, query and body input. -/
def schemasReject : Schemas :=
  ⟨some rejectAllSchema, some rejectAllSchema, some rejectAllSchema⟩

/-- A schema accepting every value unchanged. -/
def acceptAllSchema : SchemaFn := fun v => .success v

/-! ## Guard-engine theorems (C2) -/

/-- C2 counterexample: the produced `handler` dispatches on the *registered*
check's arity, not the call's, so a wrong-arity call does not return
`false`: calling `handler()` on a registered two-argument check evaluates
the check with an `undefined` resource (here yielding `true`), and calling
`handler(resource)` on a registered one-argument check evaluates the basic
check (here yielding `true`). -/
theorem initGuards_wrongArity_cex :
    (((initGuards arityCexOpts "act").permissionHandlerGenerator "act"
        req₀).map (fun ph => ph.handler none) = .ok true) ∧
    (((initGuards basicEvalOpts "act").permissionHandlerGenerator "act"
        req₀).map (fun ph => ph.handler (some ())) = .ok true) :=
  ⟨rfl, rfl⟩

/-- C2 (amended): the handler produced by `initGuards` dispatches solely on
the registered check's declared arity: a length-1 check is always evaluated
on `authData` alone (any passed resource is ignored), a length-2 check is
always evaluated on `(authData, resource)` with `resource` possibly
`undefined`, and only a check registered with any other arity yields `false`
without being evaluated. -/
theorem initGuards_handler_dispatch {R A : Type} (opts : InitGuardOptions R A)
    (action : String) (req : Request) (a : A)
    (hauth : opts.auth req = .ok a) :
    (initGuards opts action).permissionHandlerGenerator action req =
      .ok ⟨guardHandler (opts.guardChecks action) a,
           decide ((opts.guardChecks action).length = 2), a⟩ ∧
    (∀ r : Option R,
      ((opts.guardChecks action).length = 1 →
        guardHandler (opts.guardChecks action) a r =
          (opts.guardChecks action).call a none) ∧
      ((opts.guardChecks action).length = 2 →
        guardHandler (opts.guardChecks action) a r =
          (opts.guardChecks action).call a r) ∧
      ((opts.guardChecks action).length ≠ 1 →
        (opts.guardChecks action).length ≠ 2 →
        guardHandler (opts.guardChecks action) a r = false)) := by
  constructor
  · simp [initGuards, hauth]
  · intro r
    refine ⟨?_, ?_, ?_⟩
    · intro h1
      unfold guardHandler
      rw [if_pos h1]
    · intro h2
      unfold guardHandler
      rw [if_neg (by omega), if_pos h2]
    · intro h1 h2
      unfold guardHandler
      rw [if_neg h1, if_neg h2]

/-- Witness for C2's amended dispatch law at the concrete length-2 check. -/
theorem initGuards_handler_dispatch_witness :
    (initGuards arityCexOpts "act").permissionHandlerGenerator "act" req₀ =
      .ok ⟨guardHandler (arityCexOpts.guardChecks "act") (),
           decide ((arityCexOpts.guardChecks "act").length = 2), ()⟩ ∧
    guardHandler (arityCexOpts.guardChecks "act") () none =
      (arityCexOpts.guardChecks "act").call () none := by
  have h := initGuards_handler_dispatch arityCexOpts "act" req₀ () rfl
  exact ⟨h.1, (h.2 none).2.1 rfl⟩

/-! ## Pipeline-boundary theorems (C1) -/

/-- C1 counterexample: an error thrown by the guard's `auth` function during
permission-handler generation is *not* caught by the pipeline: the handler
itself rejects (`.error`), so an exception propagates out of the returned
handler instead of being converted to a response. -/
theorem handleRoute_guardError_cex :
    handleRoute fnOk none (some throwingGuard) req₀ ctx₀ =
      .error .other := rfl

/-- C1 (amended): whenever guard evaluation does not throw (no guard, or the
permission-handler generator resolves), the handler always produces exactly
one response — every error raised during steps 2–5 (validation, decoding,
user logic) is caught at the `try`'s boundary; a validation-engine-native
exception becomes a 400 `{error: "Validation error", issues}`, a taxonomy
error becomes `error(status, message)`, and any other exception becomes
`error(500, "Internal server error")`. Errors thrown during guard
evaluation, however, escape the handler (see the counterexample). -/
theorem handleRoute_boundary {R A : Type}
    (fn : HandlerCtx R A → Except JsError HttpResponse)
    (schemas : Option Schemas) (guard : Option (Guard R A))
    (req : Request) (ctx : RouteContext)
    (h : guard = none ∨ ∃ g ph, guard = some g ∧
      g.permissionHandlerGenerator g.action req = .ok ph) :
    (handleRoute fn schemas guard req ctx).isOk = true ∧
    (∀ s m, handleRoute (R := R) (A := A)
        (fun _ => .error (.httpError s m)) none none req ⟨none⟩ =
      .ok (httpError s m)) ∧
    (∀ i, handleRoute (R := R) (A := A)
        (fun _ => .error (.zodError i)) none none req ⟨none⟩ =
      .ok ⟨400, .obj [("error", .str "Validation error"), ("issues", i)],
        []⟩) ∧
    handleRoute (R := R) (A := A)
        (fun _ => .error .other) none none req ⟨none⟩ =
      .ok (httpError 500 "Internal server error") := by
  refine ⟨?_, fun s m => rfl, fun i => rfl, rfl⟩
  rcases h with rfl | ⟨g, ph, rfl, hgen⟩
  · rfl
  · simp only [handleRoute, hgen]
    split
    · rfl
    · split
      · rfl
      · rfl

/-- Witness for C1's amended boundary law: a passing basic guard and a
throwing user logic, both yielding exactly one response. -/
theorem handleRoute_boundary_witness :
    (handleRoute fnOk none (some allowGuard) req₀ ctx₀).isOk = true ∧
    handleRoute (R := Unit) (A := Unit)
        (fun _ => .error (.httpError 404 "Not found")) none none req₀
        ⟨none⟩ =
      .ok (httpError 404 "Not found") := by
  have h := handleRoute_boundary fnOk none (some allowGuard) req₀ ctx₀
    (Or.inr ⟨allowGuard, _, rfl, rfl⟩)
  exact ⟨h.1, h.2.1 404 "Not found"⟩

/-! ## Guard short-circuit theorems (C5, C10) -/

/-- C5: a guarded route whose permission handler needs no resource and whose
basic check denies terminates with `httpError(403, "Forbidden")` for *every*
user logic and *every* schema configuration — parameter, query and body
validation never run (the result does not depend on them at all). -/
theorem guard_denied_403 {R A : Type}
    (fn : HandlerCtx R A → Except JsError HttpResponse)
    (schemas : Option Schemas) (g : Guard R A) (req : Request)
    (ctx : RouteContext) (ph : PermissionHandler R A)
    (hgen : g.permissionHandlerGenerator g.action req = .ok ph)
    (hbasic : ph.needResource = false)
    (hdeny : ph.handler none = false) :
    handleRoute fn schemas (some g) req ctx =
      .ok (httpError 403 "Forbidden") := by
  simp [handleRoute, hgen, hbasic, hdeny]

/-- Witness for C5: an always-denying basic guard short-circuits with 403
even when every configured schema rejects every input (so validation
observably did not run). -/
theorem guard_denied_403_witness :
    handleRoute fnOk (some schemasReject) (some denyGuard) req₀ ctx₀ =
      .ok (httpError 403 "Forbidden") :=
  guard_denied_403 fnOk (some schemasReject) denyGuard req₀ ctx₀ _ rfl rfl rfl

/-- The pipeline body only examines the `handleResourcePermission` closure
it was given through the context it passes to user logic. -/
theorem tryBlock_congr {R A : Type}
    (f₁ f₂ : HandlerCtx R A → Except JsError HttpResponse)
    (schemas : Option Schemas) (req : Request) (ctx : RouteContext)
    (hrp : R → Except JsError Unit) (a : Option A)
    (h : ∀ c : HandlerCtx R A,
      c.handleResourcePermission = hrp → f₁ c = f₂ c) :
    tryBlock f₁ schemas req ctx hrp a = tryBlock f₂ schemas req ctx hrp a := by
  unfold tryBlock
  split
  · rfl
  · split
    · rfl
    · split
      · rfl
      · split
        · rfl
        · exact h _ rfl

/-- Basic passing guard: the pipeline proceeds with the untouched no-op
resource-permission callback and the guard's auth data. -/
theorem handleRoute_guard_basic_pass {R A : Type}
    (fn : HandlerCtx R A → Except JsError HttpResponse)
    (schemas : Option Schemas) (g : Guard R A) (req : Request)
    (ctx : RouteContext) (ph : PermissionHandler R A)
    (hgen : g.permissionHandlerGenerator g.action req = .ok ph)
    (hbasic : ph.needResource = false)
    (hpass : ph.handler none = true) :
    handleRoute fn schemas (some g) req ctx =
      .ok (runCaught (tryBlock fn schemas req ctx (fun _ => .ok ())
        (some ph.authData))) := by
  simp [handleRoute, hgen, hbasic, hpass]

/-- C10: on a route without a guard, and on a guarded route whose basic
check passes, the `handleResourcePermission` callback handed to user logic
is a no-op: invoking it on any resource before running the rest of the user
logic changes nothing about the outcome (in particular it never throws, so
it can never produce a 403). -/
theorem handleResourcePermission_noop {R A : Type} (schemas : Option Schemas)
    (req : Request) (ctx : RouteContext) (r : R)
    (fn : HandlerCtx R A → Except JsError HttpResponse) :
    (handleRoute (fun c => c.handleResourcePermission r >>= fun _ => fn c)
        schemas none req ctx = handleRoute fn schemas none req ctx) ∧
    (∀ (g : Guard R A) (ph : PermissionHandler R A),
      g.permissionHandlerGenerator g.action req = .ok ph →
      ph.needResource = false → ph.handler none = true →
      handleRoute (fun c => c.handleResourcePermission r >>= fun _ => fn c)
          schemas (some g) req ctx =
        handleRoute fn schemas (some g) req ctx) := by
  have key : ∀ a : Option A,
      tryBlock (fun c => c.handleResourcePermission r >>= fun _ => fn c)
          schemas req ctx (fun _ => .ok ()) a =
        tryBlock fn schemas req ctx (fun _ => .ok ()) a := by
    intro a
    apply tryBlock_congr
    intro c hc
    rw [hc]
    rfl
  constructor
  · exact congrArg (fun x => Except.ok (runCaught x)) (key none)
  · intro g ph hgen hbasic hpass
    rw [handleRoute_guard_basic_pass _ schemas g req ctx ph hgen hbasic hpass,
      handleRoute_guard_basic_pass fn schemas g req ctx ph hgen hbasic hpass]
    exact congrArg (fun x => Except.ok (runCaught x)) (key (some ph.authData))

/-- Witness for C10 at concrete inputs: guardless route and passing basic
guard. -/
theorem handleResourcePermission_noop_witness :
    (handleRoute (fun c => c.handleResourcePermission () >>= fun _ => fnOk c)
        none none req₀ ctx₀ = handleRoute fnOk none none req₀ ctx₀) ∧
    (handleRoute (fun c => c.handleResourcePermission () >>= fun _ => fnOk c)
        none (some allowGuard) req₀ ctx₀ =
      handleRoute fnOk none (some allowGuard) req₀ ctx₀) := by
  have h := handleResourcePermission_noop (R := Unit) (A := Unit) none req₀
    ctx₀ () fnOk
  exact ⟨h.1, h.2 allowGuard _ rfl rfl rfl⟩

/-! ## Body-decoding theorems (C6) -/

/-- A request with content type `text/plain`. -/
def reqTextPlain : Request := ⟨[], some "text/plain", .ok (.obj []), .ok []⟩

/-- A request with no content type whose JSON body fails to parse. -/
def reqBadJson : Request := ⟨[], none, .error .other, .ok []⟩

/-- With only a body schema configured and no params promise, the pipeline
reduces to the decode step followed by body validation and user logic. -/
theorem tryBlock_bodyOnly {R A : Type} (sch : SchemaFn)
    (fn : HandlerCtx R A → Except JsError HttpResponse)
    (req : Request) (ctx : RouteContext) (hctx : ctx.params = none) :
    tryBlock fn (some ⟨none, none, some sch⟩) req ctx (fun _ => .ok ()) none =
      match decodeBody req with
      | .inr resp => .ok resp
      | .inl rawBody => afterBodyDecode fn sch req rawBody := by
  unfold tryBlock
  rw [hctx]
  cases hd : decodeBody req with
  | inr resp => rfl
  | inl rawBody =>
    cases hv : validateWithSchema sch rawBody "body" with
    | inr resp =>
      show (match (match validateWithSchema sch rawBody "body" with
            | .inr resp => Sum.inr resp
            | .inl d => Sum.inl (some d) : Option Val ⊕ HttpResponse) with
        | .inr resp => Except.ok resp
        | .inl bodyValue => fn ⟨req, .obj [], .obj [], bodyValue,
            fun _ => .ok (), none⟩) = afterBodyDecode fn sch req rawBody
      unfold afterBodyDecode
      rw [hv]
    | inl d =>
      show (match (match validateWithSchema sch rawBody "body" with
            | .inr resp => Sum.inr resp
            | .inl d => Sum.inl (some d) : Option Val ⊕ HttpResponse) with
        | .inr resp => Except.ok resp
        | .inl bodyValue => fn ⟨req, .obj [], .obj [], bodyValue,
            fun _ => .ok (), none⟩) = afterBodyDecode fn sch req rawBody
      unfold afterBodyDecode
      rw [hv]

/-- C6: for a route with a configured body schema (and no guard): a content
type starting with `multipart/form-data` is decoded as form fields (the
pipeline continues on `formDataToObject fd`), and a form-decode rejection
yields status 400 `{error: "Invalid request body"}`; a content type
containing `application/json`, or an absent one, is parsed as JSON (the
pipeline continues on the parsed value), and a JSON parse error yields the
same 400; any other content type terminates with status 415 and body
`{error: "Unsupported Content-Type: <type>"}`; the decode-failure responses
have statuses 400 and 415 — never 500. -/
theorem handleRoute_bodyDecoding {R A : Type} (sch : SchemaFn)
    (fn : HandlerCtx R A → Except JsError HttpResponse)
    (req : Request) (ctx : RouteContext) (ct : String)
    (hctx : ctx.params = none)
    (hct : req.contentType.getD "" = ct) :
    (jsStartsWith ct "multipart/form-data" = true →
      (∀ fd, req.formData = .ok fd →
        handleRoute fn (some ⟨none, none, some sch⟩) none req ctx =
          .ok (runCaught (afterBodyDecode fn sch req
            (formDataToObject fd)))) ∧
      (∀ e, req.formData = .error e →
        handleRoute fn (some ⟨none, none, some sch⟩) none req ctx =
          .ok invalidBodyResponse)) ∧
    (jsStartsWith ct "multipart/form-data" = false →
      (jsIncludes ct "application/json" = true ∨ ct = "") →
      (∀ v, req.json = .ok v →
        handleRoute fn (some ⟨none, none, some sch⟩) none req ctx =
          .ok (runCaught (afterBodyDecode fn sch req v))) ∧
      (∀ e, req.json = .error e →
        handleRoute fn (some ⟨none, none, some sch⟩) none req ctx =
          .ok invalidBodyResponse)) ∧
    (jsStartsWith ct "multipart/form-data" = false →
      jsIncludes ct "application/json" = false → ¬ ct = "" →
      handleRoute fn (some ⟨none, none, some sch⟩) none req ctx =
        .ok (unsupportedMediaResponse ct)) ∧
    invalidBodyResponse.status = 400 ∧
    (unsupportedMediaResponse ct).status = 415 := by
  have hroute : handleRoute fn (some ⟨none, none, some sch⟩) none req ctx =
      .ok (runCaught (tryBlock fn (some ⟨none, none, some sch⟩) req ctx
        (fun _ => .ok ()) none)) := rfl
  have htb := tryBlock_bodyOnly sch fn req ctx hctx
  refine ⟨?_, ?_, ?_, rfl, rfl⟩
  · intro h1
    constructor
    · intro fd hfd
      have hdec : decodeBody req = .inl (formDataToObject fd) := by
        simp [decodeBody, hct, h1, hfd]
      rw [hroute, htb, hdec]
    · intro e hfd
      have hdec : decodeBody req = .inr invalidBodyResponse := by
        simp [decodeBody, hct, h1, hfd]
      rw [hroute, htb, hdec]
      rfl
  · intro h1 h2
    constructor
    · intro v hv
      have hdec : decodeBody req = .inl v := by
        rcases h2 with h2 | h2
        · simp [decodeBody, hct, h1, h2, hv]
        · subst h2
          simp [decodeBody, hct, h1, hv]
      rw [hroute, htb, hdec]
    · intro e hv
      have hdec : decodeBody req = .inr invalidBodyResponse := by
        rcases h2 with h2 | h2
        · simp [decodeBody, hct, h1, h2, hv]
        · subst h2
          simp [decodeBody, hct, h1, hv]
      rw [hroute, htb, hdec]
      rfl
  · intro h1 h2 h3
    have hdec : decodeBody req = .inr (unsupportedMediaResponse ct) := by
      simp [decodeBody, hct, h1, h2, h3]
    rw [hroute, htb, hdec]
    rfl

/-- Witness for C6: `text/plain` against a configured body schema is a 415
naming the content type; malformed JSON against a configured body schema is
a 400 "Invalid request body", not a 500. -/
theorem handleRoute_bodyDecoding_witness :
    (handleRoute fnOk (some ⟨none, none, some acceptAllSchema⟩) none
        reqTextPlain ctx₀ = .ok (unsupportedMediaResponse "text/plain")) ∧
    (handleRoute fnOk (some ⟨none, none, some acceptAllSchema⟩) none
        reqBadJson ctx₀ = .ok invalidBodyResponse) := by
  have h1 := handleRoute_bodyDecoding acceptAllSchema fnOk reqTextPlain ctx₀
    "text/plain" rfl rfl
  have h2 := handleRoute_bodyDecoding acceptAllSchema fnOk reqBadJson ctx₀
    "" rfl rfl
  refine ⟨h1.2.2.1 (by decide) (by decide) (by decide), ?_⟩
  exact (h2.2.1 (by decide) (Or.inr rfl)).2 .other rfl

/-! ## Default-query-schema theorems (C8) -/

/-- `withDefaultQuerySchema(schema)`: the intersection of the caller's
schema with `DefaultQuerySchemaRefined`, modelled at the parsed-value level
as the conjunction of both checks — the base schema's verdict, then the
cross-field refinement (with zod's refine failure message). -/
def withDefaultQuerySchema (base : ParsedQuery → VResult ParsedQuery) :
    ParsedQuery → VResult ParsedQuery :=
  fun q =>
    match base q with
    | .failure issues => .failure issues
    | .success q' =>
      if defaultQueryRefineCheck q then .success q'
      else .failure
        (.str "\x27updated_after\x27 must be <= \x27updated_before\x27")

/-- Whether a validation outcome is a failure response with status 400. -/
def isError400 {α : Type} : α ⊕ HttpResponse → Bool
  | .inr r => r.status == 400
  | .inl _ => false

/-- C8: the cross-field check of a schema built through
`withDefaultQuerySchema` holds exactly when `updated_after ≤ updated_before`
whenever both are present (in particular it passes when either is absent);
when it holds the built schema behaves exactly as the base schema; and when
both are present with `updated_after` strictly later, validation fails with
a 400 response whatever the base schema says. -/
theorem withDefaultQuerySchema_crossField
    (base : ParsedQuery → VResult ParsedQuery) (q : ParsedQuery) :
    (defaultQueryRefineCheck q = true ↔
      (∀ a b, q.updated_after = some a → q.updated_before = some b →
        a ≤ b)) ∧
    (defaultQueryRefineCheck q = true →
      withDefaultQuerySchema base q = base q) ∧
    (∀ a b, q.updated_after = some a → q.updated_before = some b → b < a →
      isError400 (validateWithSchema (withDefaultQuerySchema base) q
        "query") = true) := by
  refine ⟨?_, ?_, ?_⟩
  · unfold defaultQueryRefineCheck
    cases hua : q.updated_after with
    | none =>
      constructor
      · intro _ a b ha _
        exact absurd ha (by simp)
      · intro _
        trivial
    | some ua =>
      cases hub : q.updated_before with
      | none =>
        constructor
        · intro _ a b _ hb
          exact absurd hb (by simp)
        · intro _
          trivial
      | some ub =>
        simp only [decide_eq_true_eq]
        constructor
        · intro h a b ha hb
          have ha' : a = ua := (Option.some_injective _ ha).symm
          have hb' : b = ub := (Option.some_injective _ hb).symm
          rw [ha', hb']; exact h
        · intro h
          exact h ua ub rfl rfl
  · intro h
    unfold withDefaultQuerySchema
    cases hb : base q with
    | failure issues => rfl
    | success q' => simp [h]
  · intro a b ha hb hlt
    have hrc : defaultQueryRefineCheck q = false := by
      unfold defaultQueryRefineCheck
      rw [ha, hb]
      simp [not_le.mpr hlt]
    unfold validateWithSchema withDefaultQuerySchema
    cases hbase : base q with
    | failure issues => rfl
    | success q' =>
      simp [hrc, isError400]

/-- Witness for C8: `updated_after = 5 > 3 = updated_before` fails with 400
through an accept-all base schema; `updated_after = 3 ≤ 5 = updated_before`
leaves the outcome to the base schema. -/
theorem withDefaultQuerySchema_crossField_witness :
    isError400 (validateWithSchema
      (withDefaultQuerySchema (fun q => VResult.success q))
      ⟨1, 25, some 5, some 3⟩ "query") = true ∧
    withDefaultQuerySchema (fun q => VResult.success q)
        ⟨1, 25, some 3, some 5⟩ =
      (fun q => VResult.success q) ⟨1, 25, some 3, some 5⟩ := by
  have h := withDefaultQuerySchema_crossField (fun q => VResult.success q)
    ⟨1, 25, some 5, some 3⟩
  have h2 := withDefaultQuerySchema_crossField (fun q => VResult.success q)
    ⟨1, 25, some 3, some 5⟩
  exact ⟨h.2.2 5 3 rfl rfl (by decide), h2.2.1 (by decide)⟩

/-! ## Download responses and `Content-Disposition` (C7)

`buildContentDisposition` does three passes over the filename:
`encodeURIComponent`, then `.replace` of `'`, `(`, `)` with their uppercase
percent-escapes, then `.replace` of `*` with `%2A`; the ASCII fallback
replaces `/`, `\` and `"` with `_`. -/

/-- `f` mapped over a character list, concatenating the results. -/
def concatMapC (f : Char → List Char) : List Char → List Char
  | [] => []
  | c :: t => f c ++ concatMapC f t

/-- `f` mapped over a byte list, concatenating the results. -/
def concatMapB (f : Nat → List Char) : List Nat → List Char
  | [] => []
  | b :: t => f b ++ concatMapB f t

/-- The uppercase hexadecimal digit of `n < 16`
(as `toString(16).toUpperCase()` produces). -/
def hexDigitChar (n : Nat) : Char :=
  if n < 10 then Char.ofNat (48 + n) else Char.ofNat (55 + n)

/-- The `%XY` percent-escape of a byte. -/
def pctByteL (b : Nat) : List Char :=
  ['%', hexDigitChar (b / 16), hexDigitChar (b % 16)]

/-- The UTF-8 encoding of a character's code point. -/
def utf8Bytes (c : Char) : List Nat :=
  let n := c.toNat
  if n < 0x80 then [n]
  else if n < 0x800 then [0xC0 + n / 0x40, 0x80 + n % 0x40]
  else if n < 0x10000 then
    [0xE0 + n / 0x1000, 0x80 + (n / 0x40) % 0x40, 0x80 + n % 0x40]
  else
    [0xF0 + n / 0x40000, 0x80 + (n / 0x1000) % 0x40,
      0x80 + (n / 0x40) % 0x40, 0x80 + n % 0x40]

/-- The characters `encodeURIComponent` leaves unescaped (ECMA-262):
ASCII alphanumerics and `- _ . ! ~ * ' ( )`, here by code point:
45 95 46 33 126 42 39 40 41. -/
def isURIUnreserved (c : Char) : Bool :=
  (65 ≤ c.toNat && c.toNat ≤ 90) || (97 ≤ c.toNat && c.toNat ≤ 122) ||
  (48 ≤ c.toNat && c.toNat ≤ 57) ||
  c.toNat = 45 || c.toNat = 95 || c.toNat = 46 || c.toNat = 33 ||
  c.toNat = 126 || c.toNat = 42 || c.toNat = 39 || c.toNat = 40 ||
  c.toNat = 41

/-- One character under `encodeURIComponent`: kept if unreserved, otherwise
percent-escaped UTF-8 bytes. -/
def encodeURIComponentChar (c : Char) : List Char :=
  if isURIUnreserved c then [c] else concatMapB pctByteL (utf8Bytes c)

/-- JS `encodeURIComponent` on a character list. -/
def encodeURIComponentL (cs : List Char) : List Char :=
  concatMapC encodeURIComponentChar cs

/-- `.replace(/['()]/g, (c) => "%" + c.charCodeAt(0).toString(16).toUpperCase())`. -/
def escapeQuoteParensL (cs : List Char) : List Char :=
  concatMapC (fun c =>
    if c = Char.ofNat 39 || c = '(' || c = ')' then pctByteL c.toNat
    else [c]) cs

/-- `.replace(/\*/g, "%2A")`. -/
def escapeStarL (cs : List Char) : List Char :=
  concatMapC (fun c => if c = '*' then ['%', '2', 'A'] else [c]) cs

/-- The `filename*=UTF-8''` extended value of the source:
`encodeURIComponent(filename)` with `'`, `(`, `)` and `*` additionally
escaped. -/
def encodeRFC5987 (filename : String) : String :=
  ⟨escapeStarL (escapeQuoteParensL (encodeURIComponentL filename.data))⟩

/-- The ASCII fallback: `filename.replace(/[/\\"]/g, "_")`. -/
def fallbackName (filename : String) : String :=
  ⟨filename.data.map (fun c =>
    if c = '/' || c = '\\' || c = '"' then '_' else c)⟩

/-- `buildContentDisposition(filename, inline)`:
`<type>; filename="<fallback>"; filename*=UTF-8''<encoded>`. -/
def buildContentDisposition (filename : String) (inline : Bool) : String :=
  let type := if inline then "inline" else "attachment"
  let fallback := fallbackName filename
  let encoded := encodeRFC5987 filename
  type ++ "; filename=\"" ++ fallback ++ "\"; filename*=UTF-8\x27\x27"
    ++ encoded

/-- The `DownloadInit` options of `httpOkDownload`. `contentLength` is
modelled already stringified (the source applies `String(·)` to a
number-or-string); extra `ResponseInit` fields beyond `headers` are not
modelled. -/
structure DownloadInit where
  filename : String
  contentType : String := "application/octet-stream"
  contentLength : Option String := none
  inline : Bool := false
  cacheControl : Option String := none
  headers : List (String × String) := []

/-- `Headers.prototype.set` (replace or append), sharing the assoc-list
update of `setField`. -/
def headersSet (hs : List (String × String)) (k v : String) :
    List (String × String) :=
  setField hs k v

/-- `Headers.prototype.get`. -/
def headersGet (hs : List (String × String)) (k : String) : Option String :=
  (hs.find? (fun p => p.1 = k)).map (·.2)

/-- `httpOkDownload(body, init)`: status 200 with `Content-Type`, optional
`Content-Length` (skipped only when null/undefined), optional
`Cache-Control` (skipped when undefined or empty, JS truthiness), and the
`Content-Disposition` header. -/
def httpOkDownload (body : Val) (init : DownloadInit) : HttpResponse :=
  let h1 := headersSet init.headers "Content-Type" init.contentType
  let h2 := match init.contentLength with
    | some len => headersSet h1 "Content-Length" len
    | none => h1
  let h3 := match init.cacheControl with
    | some cc => if cc = "" then h2 else headersSet h2 "Cache-Control" cc
    | none => h2
  let h4 := headersSet h3 "Content-Disposition"
    (buildContentDisposition init.filename init.inline)
  ⟨200, body, h4⟩

/-! ### The RFC 5987/6266 decoding direction (specification side)

The source only encodes; "decodes back to the original filename" is stated
against the standard decoding: percent-unescape the extended value to bytes,
then UTF-8-decode the bytes to code points. -/

/-- Value of a hexadecimal digit character, if it is one. -/
def hexVal (c : Char) : Option Nat :=
  if 48 ≤ c.toNat ∧ c.toNat ≤ 57 then some (c.toNat - 48)
  else if 65 ≤ c.toNat ∧ c.toNat ≤ 70 then some (c.toNat - 55)
  else if 97 ≤ c.toNat ∧ c.toNat ≤ 102 then some (c.toNat - 87)
  else none

/-- Percent-unescaping of an encoded value into its byte sequence: `%XY`
denotes a byte, a plain ASCII character denotes its own code. -/
def pctDecode : List Char → Option (List Nat)
  | [] => some []
  | c :: rest =>
    if c = '%' then
      match rest with
      | h :: l :: rest2 =>
        match hexVal h, hexVal l with
        | some hv, some lv =>
          (pctDecode rest2).map (fun bs => (hv * 16 + lv) :: bs)
        | _, _ => none
      | _ => none
    else if c.toNat < 0x80 then
      (pctDecode rest).map (fun bs => c.toNat :: bs)
    else none

/-- Streaming UTF-8 decoding of a byte sequence into code points: `pend`
carries the partially decoded lead value and the number of continuation
bytes still expected. -/
def utf8DecodeSM (pend : Option (Nat × Nat)) : List Nat → Option (List Nat)
  | [] => match pend with
    | none => some []
    | some _ => none
  | b :: rest =>
    match pend with
    | none =>
      if b < 0x80 then (utf8DecodeSM none rest).map (fun ns => b :: ns)
      else if 0xC0 ≤ b ∧ b < 0xE0 then
        utf8DecodeSM (some (b - 0xC0, 1)) rest
      else if 0xE0 ≤ b ∧ b < 0xF0 then
        utf8DecodeSM (some (b - 0xE0, 2)) rest
      else if 0xF0 ≤ b ∧ b < 0xF8 then
        utf8DecodeSM (some (b - 0xF0, 3)) rest
      else none
    | some (acc, k) =>
      if 0x80 ≤ b ∧ b < 0xC0 then
        if k = 1 then
          (utf8DecodeSM none rest).map (fun ns =>
            (acc * 0x40 + (b - 0x80)) :: ns)
        else utf8DecodeSM (some (acc * 0x40 + (b - 0x80), k - 1)) rest
      else none

/-- UTF-8 decoding of a byte sequence into code points. -/
def utf8Decode (bs : List Nat) : Option (List Nat) := utf8DecodeSM none bs

/-- The UTF-8 byte stream of a character list. -/
def utf8Stream : List Char → List Nat
  | [] => []
  | c :: t => utf8Bytes c ++ utf8Stream t

/-- Full decoding of an RFC 5987 extended value back to a string. -/
def decodeRFC5987 (s : String) : Option String :=
  match pctDecode s.data with
  | none => none
  | some bs =>
    match utf8Decode bs with
    | none => none
    | some ns => some ⟨ns.map Char.ofNat⟩

/-! ### Round-trip lemmas for the extended filename encoding -/

/-- Every character's code point is below `0x110000`. -/
theorem char_toNat_lt (c : Char) : c.toNat < 0x110000 := by
  rcases c.valid with h | ⟨_, h⟩
  · exact Nat.lt_trans h (by decide)
  · exact h

/-- The uppercase hex digits decode back, and collide with none of the
characters the two `.replace` passes rewrite. -/
theorem hexDigitChar_facts : ∀ n, n < 16 →
    hexVal (hexDigitChar n) = some n ∧
    hexDigitChar n ≠ Char.ofNat 39 ∧ hexDigitChar n ≠ '(' ∧
    hexDigitChar n ≠ ')' ∧ hexDigitChar n ≠ '*' ∧
    hexDigitChar n ≠ '%' := by decide

/-- An ASCII character is a single UTF-8 byte. -/
theorem utf8Bytes_ascii (c : Char) (h : c.toNat < 0x80) :
    utf8Bytes c = [c.toNat] := by
  unfold utf8Bytes
  rw [if_pos h]

/-- UTF-8 bytes are bytes. -/
theorem utf8Bytes_lt (c : Char) : ∀ b ∈ utf8Bytes c, b < 256 := by
  have h := char_toNat_lt c
  intro b hb
  unfold utf8Bytes at hb
  dsimp only at hb
  split_ifs at hb with h1 h2 h3
  · simp only [List.mem_singleton] at hb
    omega
  · simp only [List.mem_cons, List.not_mem_nil, or_false] at hb
    rcases hb with rfl | rfl <;> omega
  · simp only [List.mem_cons, List.not_mem_nil, or_false] at hb
    rcases hb with rfl | rfl | rfl <;> omega
  · simp only [List.mem_cons, List.not_mem_nil, or_false] at hb
    rcases hb with rfl | rfl | rfl | rfl <;> omega

/-- `concatMapC` distributes over append. -/
theorem concatMapC_append (f : Char → List Char) (a b : List Char) :
    concatMapC f (a ++ b) = concatMapC f a ++ concatMapC f b := by
  induction a with
  | nil => rfl
  | cons c t ih =>
    show f c ++ concatMapC f (t ++ b) = (f c ++ concatMapC f t) ++ _
    rw [ih, List.append_assoc]

/-- An unreserved character is ASCII, is not `%`, and is not a hex digit
collision risk for the decoder. -/
theorem isURIUnreserved_ascii (c : Char) (h : isURIUnreserved c = true) :
    c.toNat < 0x80 ∧ c ≠ '%' := by
  unfold isURIUnreserved at h
  simp only [Bool.or_eq_true, Bool.and_eq_true, decide_eq_true_eq] at h
  have hn : c.toNat < 0x80 ∧ c.toNat ≠ 37 := by
    rcases h with
      (((((((((((h | h) | h) | h) | h) | h) | h) | h) | h) | h) | h) | h) <;>
      omega
  refine ⟨hn.1, fun hc => hn.2 ?_⟩
  rw [hc]
  rfl

/-- What one character contributes to the final extended value: kept only if
unreserved *and* none of `' ( ) *`, otherwise percent-escaped UTF-8 bytes. -/
def extEncodeChar (c : Char) : List Char :=
  if isURIUnreserved c &&
      !(c = Char.ofNat 39 || c = '(' || c = ')' || c = '*') then [c]
  else concatMapB pctByteL (utf8Bytes c)

/-- The quote/parens `.replace` pass leaves percent-escape sequences
untouched. -/
theorem escQP_pct (bs : List Nat) (hb : ∀ b ∈ bs, b < 256) :
    escapeQuoteParensL (concatMapB pctByteL bs) = concatMapB pctByteL bs := by
  induction bs with
  | nil => rfl
  | cons b t ih =>
    have hblt : b < 256 := hb b (by simp)
    have hf1 := hexDigitChar_facts (b / 16) (by omega)
    have hf2 := hexDigitChar_facts (b % 16) (by omega)
    have ih' := ih (fun x hx => hb x (List.mem_cons_of_mem b hx))
    show escapeQuoteParensL (pctByteL b ++ concatMapB pctByteL t) = _
    show concatMapC _ (pctByteL b ++ concatMapB pctByteL t) = _
    rw [concatMapC_append]
    have h1 : concatMapC (fun c =>
        if c = Char.ofNat 39 || c = '(' || c = ')' then pctByteL c.toNat
        else [c]) (pctByteL b) = pctByteL b := by
      show (if ('%' : Char) = Char.ofNat 39 || ('%' : Char) = '(' ||
          ('%' : Char) = ')' then _ else _) ++ _ = _
      rw [if_neg (by decide)]
      unfold concatMapC
      rw [if_neg (by simp [hf1.2.1, hf1.2.2.1, hf1.2.2.2.1])]
      unfold concatMapC
      rw [if_neg (by simp [hf2.2.1, hf2.2.2.1, hf2.2.2.2.1])]
      rfl
    rw [h1]
    show _ ++ escapeQuoteParensL (concatMapB pctByteL t) = _
    rw [ih']
    rfl

/-- The star `.replace` pass leaves percent-escape sequences untouched. -/
theorem escStar_pct (bs : List Nat) (hb : ∀ b ∈ bs, b < 256) :
    escapeStarL (concatMapB pctByteL bs) = concatMapB pctByteL bs := by
  induction bs with
  | nil => rfl
  | cons b t ih =>
    have hblt : b < 256 := hb b (by simp)
    have hf1 := hexDigitChar_facts (b / 16) (by omega)
    have hf2 := hexDigitChar_facts (b % 16) (by omega)
    have ih' := ih (fun x hx => hb x (List.mem_cons_of_mem b hx))
    show concatMapC _ (pctByteL b ++ concatMapB pctByteL t) = _
    rw [concatMapC_append]
    have h1 : concatMapC (fun c => if c = '*' then ['%', '2', 'A'] else [c])
        (pctByteL b) = pctByteL b := by
      show (if ('%' : Char) = '*' then _ else _) ++ _ = _
      rw [if_neg (by decide)]
      unfold concatMapC
      rw [if_neg hf1.2.2.2.2.1]
      unfold concatMapC
      rw [if_neg hf2.2.2.2.2.1]
      rfl
    rw [h1]
    show _ ++ escapeStarL (concatMapB pctByteL t) = _
    rw [ih']
    rfl

/-- One character through all three passes equals its single-pass
contribution. -/
theorem threePasses_char (c : Char) :
    escapeStarL (escapeQuoteParensL (encodeURIComponentChar c)) =
      extEncodeChar c := by
  by_cases h39 : c = Char.ofNat 39
  · subst h39; decide
  · by_cases h40 : c = '('
    · subst h40; decide
    · by_cases h41 : c = ')'
      · subst h41; decide
      · by_cases h42 : c = '*'
        · subst h42; decide
        · by_cases hu : isURIUnreserved c = true
          · have he : encodeURIComponentChar c = [c] := by
              unfold encodeURIComponentChar
              rw [if_pos hu]
            rw [he]
            have hq : escapeQuoteParensL [c] = [c] := by
              show (if c = Char.ofNat 39 || c = '(' || c = ')' then _
                else _) ++ ([] : List Char) = [c]
              rw [if_neg (by simp [h39, h40, h41])]
              rfl
            rw [hq]
            have hs : escapeStarL [c] = [c] := by
              show (if c = '*' then _ else _) ++ ([] : List Char) = [c]
              rw [if_neg h42]
              rfl
            rw [hs]
            unfold extEncodeChar
            rw [if_pos (by simp [hu, h39, h40, h41, h42])]
          · have he : encodeURIComponentChar c =
                concatMapB pctByteL (utf8Bytes c) := by
              unfold encodeURIComponentChar
              rw [if_neg hu]
            rw [he, escQP_pct _ (utf8Bytes_lt c), escStar_pct _ (utf8Bytes_lt c)]
            unfold extEncodeChar
            rw [if_neg (by simp [hu])]

/-- The whole filename through all three passes equals the single-pass
extended encoding. -/
theorem threePasses (cs : List Char) :
    escapeStarL (escapeQuoteParensL (encodeURIComponentL cs)) =
      concatMapC extEncodeChar cs := by
  induction cs with
  | nil => rfl
  | cons c t ih =>
    show escapeStarL (escapeQuoteParensL
      (encodeURIComponentChar c ++ concatMapC encodeURIComponentChar t)) = _
    show escapeStarL (concatMapC _
      (encodeURIComponentChar c ++ concatMapC encodeURIComponentChar t)) = _
    rw [concatMapC_append]
    show concatMapC _ (escapeQuoteParensL (encodeURIComponentChar c) ++
      escapeQuoteParensL (encodeURIComponentL t)) = _
    rw [concatMapC_append]
    show escapeStarL (escapeQuoteParensL (encodeURIComponentChar c)) ++
      escapeStarL (escapeQuoteParensL (encodeURIComponentL t)) = _
    rw [threePasses_char, ih]
    rfl

/-- Decoding step for a plain (non-`%`, ASCII) character. -/
theorem pctDecode_plain (c : Char) (rest : List Char) (hc : c ≠ '%')
    (hlt : c.toNat < 0x80) :
    pctDecode (c :: rest) = (pctDecode rest).map (fun bs => c.toNat :: bs) := by
  conv_lhs => unfold pctDecode
  rw [if_neg hc, if_pos hlt]

/-- Decoding step for one percent-escaped byte. -/
theorem pctDecode_pctByte (b : Nat) (rest : List Char) (hb : b < 256) :
    pctDecode (pctByteL b ++ rest) =
      (pctDecode rest).map (fun bs => b :: bs) := by
  have hf1 := hexDigitChar_facts (b / 16) (by omega)
  have hf2 := hexDigitChar_facts (b % 16) (by omega)
  show pctDecode ('%' :: hexDigitChar (b / 16) :: hexDigitChar (b % 16)
    :: rest) = _
  conv_lhs => unfold pctDecode
  rw [if_pos rfl]
  dsimp only
  rw [hf1.1, hf2.1]
  dsimp only
  have hval : b / 16 * 16 + b % 16 = b := by omega
  simp only [hval]

/-- Decoding step for a full percent-escaped byte sequence. -/
theorem pctDecode_pctBytes (bs : List Nat) (rest : List Char)
    (hb : ∀ b ∈ bs, b < 256) :
    pctDecode (concatMapB pctByteL bs ++ rest) =
      (pctDecode rest).map (fun tl => bs ++ tl) := by
  induction bs with
  | nil =>
    show pctDecode ([] ++ rest) = _
    rw [List.nil_append]
    cases h : pctDecode rest with
    | none => rfl
    | some tl => rfl
  | cons b t ih =>
    have ih' := ih (fun x hx => hb x (List.mem_cons_of_mem b hx))
    show pctDecode ((pctByteL b ++ concatMapB pctByteL t) ++ rest) = _
    rw [List.append_assoc, pctDecode_pctByte b _ (hb b (by simp)), ih']
    cases h : pctDecode rest with
    | none => rfl
    | some tl => rfl

/-- Decoder step: an ASCII byte with no pending sequence. -/
theorem utf8SM_ascii (b : Nat) (rest : List Nat) (h : b < 0x80) :
    utf8DecodeSM none (b :: rest) =
      (utf8DecodeSM none rest).map (fun ns => b :: ns) := by
  conv_lhs => unfold utf8DecodeSM
  rw [if_pos h]

/-- Decoder step: a two-byte lead. -/
theorem utf8SM_lead2 (b : Nat) (rest : List Nat) (h : 0xC0 ≤ b ∧ b < 0xE0) :
    utf8DecodeSM none (b :: rest) =
      utf8DecodeSM (some (b - 0xC0, 1)) rest := by
  conv_lhs => unfold utf8DecodeSM
  rw [if_neg (by omega), if_pos h]

/-- Decoder step: a three-byte lead. -/
theorem utf8SM_lead3 (b : Nat) (rest : List Nat) (h : 0xE0 ≤ b ∧ b < 0xF0) :
    utf8DecodeSM none (b :: rest) =
      utf8DecodeSM (some (b - 0xE0, 2)) rest := by
  conv_lhs => unfold utf8DecodeSM
  rw [if_neg (by omega), if_neg (by omega), if_pos h]

/-- Decoder step: a four-byte lead. -/
theorem utf8SM_lead4 (b : Nat) (rest : List Nat) (h : 0xF0 ≤ b ∧ b < 0xF8) :
    utf8DecodeSM none (b :: rest) =
      utf8DecodeSM (some (b - 0xF0, 3)) rest := by
  conv_lhs => unfold utf8DecodeSM
  rw [if_neg (by omega), if_neg (by omega), if_neg (by omega), if_pos h]

/-- Decoder step: the final continuation byte. -/
theorem utf8SM_contLast (acc b : Nat) (rest : List Nat)
    (h : 0x80 ≤ b ∧ b < 0xC0) :
    utf8DecodeSM (some (acc, 1)) (b :: rest) =
      (utf8DecodeSM none rest).map (fun ns =>
        (acc * 0x40 + (b - 0x80)) :: ns) := by
  conv_lhs => unfold utf8DecodeSM
  dsimp only
  rw [if_pos h, if_pos rfl]

/-- Decoder step: an inner continuation byte. -/
theorem utf8SM_contMore (acc k b : Nat) (rest : List Nat)
    (h : 0x80 ≤ b ∧ b < 0xC0) (hk : k ≠ 1) :
    utf8DecodeSM (some (acc, k)) (b :: rest) =
      utf8DecodeSM (some (acc * 0x40 + (b - 0x80), k - 1)) rest := by
  conv_lhs => unfold utf8DecodeSM
  dsimp only
  rw [if_pos h, if_neg hk]

/-- UTF-8 decoding undoes `utf8Bytes`, character by character. -/
theorem utf8Decode_utf8Bytes (c : Char) (rest : List Nat) :
    utf8DecodeSM none (utf8Bytes c ++ rest) =
      (utf8DecodeSM none rest).map (fun ns => c.toNat :: ns) := by
  have hval := char_toNat_lt c
  unfold utf8Bytes
  dsimp only
  by_cases e1 : c.toNat < 0x80
  · rw [if_pos e1]
    exact utf8SM_ascii _ _ e1
  · rw [if_neg e1]
    by_cases e2 : c.toNat < 0x800
    · rw [if_pos e2]
      show utf8DecodeSM none ((0xC0 + c.toNat / 0x40) ::
        (0x80 + c.toNat % 0x40) :: rest) = _
      rw [utf8SM_lead2 _ _ (by omega), utf8SM_contLast _ _ _ (by omega)]
      have hv : (0xC0 + c.toNat / 0x40 - 0xC0) * 0x40 +
          (0x80 + c.toNat % 0x40 - 0x80) = c.toNat := by omega
      simp only [hv]
    · rw [if_neg e2]
      by_cases e3 : c.toNat < 0x10000
      · rw [if_pos e3]
        show utf8DecodeSM none ((0xE0 + c.toNat / 0x1000) ::
          (0x80 + c.toNat / 0x40 % 0x40) :: (0x80 + c.toNat % 0x40) ::
          rest) = _
        rw [utf8SM_lead3 _ _ (by omega), utf8SM_contMore _ _ _ _ (by omega)
          (by omega), utf8SM_contLast _ _ _ (by omega)]
        have hv : ((0xE0 + c.toNat / 0x1000 - 0xE0) * 0x40 +
            (0x80 + c.toNat / 0x40 % 0x40 - 0x80)) * 0x40 +
            (0x80 + c.toNat % 0x40 - 0x80) = c.toNat := by omega
        simp only [hv]
      · rw [if_neg e3]
        show utf8DecodeSM none ((0xF0 + c.toNat / 0x40000) ::
          (0x80 + c.toNat / 0x1000 % 0x40) ::
          (0x80 + c.toNat / 0x40 % 0x40) :: (0x80 + c.toNat % 0x40) ::
          rest) = _
        rw [utf8SM_lead4 _ _ (by omega), utf8SM_contMore _ _ _ _ (by omega)
          (by omega), utf8SM_contMore _ _ _ _ (by omega) (by omega),
          utf8SM_contLast _ _ _ (by omega)]
        have hv : (((0xF0 + c.toNat / 0x40000 - 0xF0) * 0x40 +
            (0x80 + c.toNat / 0x1000 % 0x40 - 0x80)) * 0x40 +
            (0x80 + c.toNat / 0x40 % 0x40 - 0x80)) * 0x40 +
            (0x80 + c.toNat % 0x40 - 0x80) = c.toNat := by omega
        simp only [hv]

/-- Percent-decoding undoes the single-pass extended encoding, yielding the
UTF-8 byte stream of the original characters. -/
theorem pctDecode_extEncode (cs : List Char) (rest : List Char) :
    pctDecode (concatMapC extEncodeChar cs ++ rest) =
      (pctDecode rest).map (fun tl => utf8Stream cs ++ tl) := by
  induction cs with
  | nil =>
    show pctDecode ([] ++ rest) = _
    rw [List.nil_append]
    cases hp : pctDecode rest with
    | none => rfl
    | some tl => rfl
  | cons c t ih =>
    show pctDecode ((extEncodeChar c ++ concatMapC extEncodeChar t) ++ rest)
      = _
    rw [List.append_assoc]
    by_cases hs : (isURIUnreserved c &&
        !(c = Char.ofNat 39 || c = '(' || c = ')' || c = '*')) = true
    · have he : extEncodeChar c = [c] := by
        unfold extEncodeChar
        rw [if_pos hs]
      have hu : isURIUnreserved c = true := (Bool.and_eq_true_iff.mp hs).1
      have hascii := isURIUnreserved_ascii c hu
      rw [he]
      show pctDecode (c :: (concatMapC extEncodeChar t ++ rest)) = _
      rw [pctDecode_plain c _ hascii.2 hascii.1, ih]
      cases hp : pctDecode rest with
      | none => rfl
      | some tl =>
        show some (c.toNat :: (utf8Stream t ++ tl)) =
          some (utf8Stream (c :: t) ++ tl)
        show _ = some ((utf8Bytes c ++ utf8Stream t) ++ tl)
        rw [utf8Bytes_ascii c hascii.1]
        rfl
    · have he : extEncodeChar c = concatMapB pctByteL (utf8Bytes c) := by
        unfold extEncodeChar
        rw [if_neg hs]
      rw [he, pctDecode_pctBytes _ _ (utf8Bytes_lt c), ih]
      cases hp : pctDecode rest with
      | none => rfl
      | some tl =>
        show some (utf8Bytes c ++ (utf8Stream t ++ tl)) =
          some (utf8Stream (c :: t) ++ tl)
        show _ = some ((utf8Bytes c ++ utf8Stream t) ++ tl)
        rw [List.append_assoc]

/-- UTF-8 decoding undoes `utf8Stream`. -/
theorem utf8Decode_utf8Stream (cs : List Char) :
    utf8DecodeSM none (utf8Stream cs) = some (cs.map Char.toNat) := by
  induction cs with
  | nil => rfl
  | cons c t ih =>
    show utf8DecodeSM none (utf8Bytes c ++ utf8Stream t) = _
    rw [utf8Decode_utf8Bytes, ih]
    rfl

/-- The full decoding round trip: the extended value produced for any
filename decodes back to that filename. -/
theorem decode_encodeRFC5987 (s : String) :
    decodeRFC5987 (encodeRFC5987 s) = some s := by
  have h1 : pctDecode (escapeStarL (escapeQuoteParensL
      (encodeURIComponentL s.data))) = some (utf8Stream s.data) := by
    rw [threePasses]
    have h := pctDecode_extEncode s.data []
    rw [List.append_nil] at h
    rw [h]
    show some (utf8Stream s.data ++ []) = _
    rw [List.append_nil]
  have h2 := utf8Decode_utf8Stream s.data
  show (match pctDecode (escapeStarL (escapeQuoteParensL
      (encodeURIComponentL s.data))) with
    | none => none
    | some bs =>
      match utf8Decode bs with
      | none => none
      | some ns => some (⟨ns.map Char.ofNat⟩ : String)) = some s
  rw [h1]
  show (match utf8Decode (utf8Stream s.data) with
    | none => none
    | some ns => some (⟨ns.map Char.ofNat⟩ : String)) = some s
  show (match utf8DecodeSM none (utf8Stream s.data) with
    | none => none
    | some ns => some (⟨ns.map Char.ofNat⟩ : String)) = some s
  rw [h2]
  show some (⟨(s.data.map Char.toNat).map Char.ofNat⟩ : String) = some s
  rw [List.map_map]
  have hid : s.data.map (Char.ofNat ∘ Char.toNat) = s.data := by
    have hfun : (Char.ofNat ∘ Char.toNat) = id :=
      funext fun c => Char.ofNat_toNat c
    rw [hfun, List.map_id]
  rw [hid]

/-- The ASCII fallback never contains `/`, `\` or `"`. -/
theorem fallbackName_chars (filename : String) :
    ∀ c ∈ (fallbackName filename).data, c ≠ '/' ∧ c ≠ '\\' ∧ c ≠ '"' := by
  intro c hc
  have hd : (fallbackName filename).data = filename.data.map (fun c =>
      if c = '/' || c = '\\' || c = '"' then '_' else c) := rfl
  rw [hd] at hc
  rcases List.mem_map.mp hc with ⟨a, _, rfl⟩
  by_cases h : (a = '/' || a = '\\' || a = '"') = true
  · rw [if_pos h]
    exact ⟨by decide, by decide, by decide⟩
  · rw [if_neg h]
    simp only [Bool.or_eq_true, decide_eq_true_eq, not_or] at h
    exact ⟨h.1.1, h.1.2, h.2⟩

/-- The download response carries the built `Content-Disposition` header. -/
theorem httpOkDownload_contentDisposition (b : Val) (init : DownloadInit) :
    headersGet (httpOkDownload b init).headers "Content-Disposition" =
      some (buildContentDisposition init.filename init.inline) := by
  show headersGet (setField _ "Content-Disposition"
    (buildContentDisposition init.filename init.inline))
    "Content-Disposition" = _
  unfold headersGet
  rw [find?_setField, if_pos rfl]
  rfl

/-- C7: the `Content-Disposition` value built for a download has the shape
`<type>; filename="<fallback>"; filename*=UTF-8''<encoded>`, where the
fallback replaces `/`, `\` and `"` by `_` (so contains none of them), and
the extended value percent-encodes the UTF-8 filename, additionally escaping
`'`, `(`, `)` and `*` (which plain `encodeURIComponent` leaves bare), and
decodes back to the original filename for *every* filename; `httpOkDownload`
carries exactly this header; for `"a b.pdf"` the header contains both
`filename="a b.pdf"` and `filename*=UTF-8''a%20b.pdf`, the latter decoding
back to `"a b.pdf"`. -/
theorem buildContentDisposition_spec (filename : String) (inline : Bool)
    (b : Val) (init : DownloadInit) :
    buildContentDisposition filename inline =
      (if inline then "inline" else "attachment") ++ "; filename=\"" ++
        fallbackName filename ++ "\"; filename*=UTF-8\x27\x27" ++
        encodeRFC5987 filename ∧
    (∀ c ∈ (fallbackName filename).data, c ≠ '/' ∧ c ≠ '\\' ∧ c ≠ '"') ∧
    decodeRFC5987 (encodeRFC5987 filename) = some filename ∧
    headersGet (httpOkDownload b init).headers "Content-Disposition" =
      some (buildContentDisposition init.filename init.inline) ∧
    encodeURIComponentL ("\x27()*" : String).data =
      ("\x27()*" : String).data ∧
    encodeRFC5987 "\x27()*" = "%27%28%29%2A" ∧
    buildContentDisposition "a b.pdf" false =
      "attachment; filename=\"a b.pdf\"; filename*=UTF-8\x27\x27a%20b.pdf" ∧
    decodeRFC5987 "a%20b.pdf" = some "a b.pdf" := by
  refine ⟨rfl, fallbackName_chars filename, decode_encodeRFC5987 filename,
    httpOkDownload_contentDisposition b init, ?_, ?_, ?_, ?_⟩
  · rfl
  · rfl
  · rfl
  · rfl
